import Mathlib

/-!
Verification of the Vultisig browser demo (a thin front-end over an MPC-wallet
SDK) against its natural-language specification.  Pure in-repository logic
(the prefixed storage adapter, the SDK singleton, the password callback, the
vault deletion flow) is embedded directly from the TypeScript source; the
threshold-signing coordinator that the spec designs (ceremony state machine,
vault registry, prepareSigning) lives in the external SDK, so those parts are
modelled from the spec, as marked on each definition.
-/

namespace VultisigSpec

/-! ## Error taxonomy (spec §7) -/

/-- Modelled from the spec: the error taxonomy of §7.  The demo source throws
plain `Error` objects with message strings; the spec asks for distinct
variants, in particular `PasswordDenied` distinguishable from transport
errors. -/
inductive CoordError where
  | transportUnavailable
  | ceremonyAborted
  | passwordDenied (msg : String)
  | ceremonyAlreadyActive
  | invalidTransactionParams
  | storeIOError
  | broadcastRejected (reason : String)
deriving DecidableEq

/-! ## SDK singleton (src/src/sdk.ts) -/

/-- Outcome classification for the module-level SDK singleton of
`src/src/sdk.ts`. -/
inductive SdkError where
  | notReady    -- the Error thrown by getSDK: SDK not initialized
  | initFailed  -- sdkInstance.initialize() rejected (e.g. WASM load failure)
deriving DecidableEq

/-- The module state of `src/src/sdk.ts`: the mutable `sdkInstance`
(`null` or a constructed `Vultisig` object, identified here by a construction
counter) together with the count of constructions performed so far. -/
structure SdkState where
  inst : Option Nat
  nextId : Nat
deriving DecidableEq

/-- The module's initial state: `sdkInstance = null`, nothing constructed. -/
def sdkInit : SdkState := { inst := none, nextId := 0 }

/-- One call to `initializeSDK()` from `src/src/sdk.ts`.  If `sdkInstance`
is set it is returned at once.  Otherwise a fresh instance is constructed and
assigned to `sdkInstance` BEFORE `sdkInstance.initialize()` is awaited; the
argument `initOk` is the outcome of that await.  On rejection the error
propagates but the assignment to `sdkInstance` persists. -/
def initSDK (initOk : Bool) (st : SdkState) : Except SdkError Nat × SdkState :=
  match st.inst with
  | some i => (.ok i, st)
  | none =>
    let j := st.nextId
    let st' : SdkState := { inst := some j, nextId := j + 1 }
    if initOk then (.ok j, st') else (.error .initFailed, st')

/-- `getSDK()` from `src/src/sdk.ts`: throws when `sdkInstance` is null,
otherwise returns the cached instance. -/
def getSDK (st : SdkState) : Except SdkError Nat :=
  match st.inst with
  | none => .error .notReady
  | some i => .ok i

/-- An execution of the module: a sequence of `initializeSDK()` calls, each
with the outcome of its `initialize()` await. -/
def runSDK (bs : List Bool) : SdkState :=
  bs.foldl (fun st b => (initSDK b st).2) sdkInit

/-! ## Password-provider callback (src/src/sdk.ts lines 27-37,
src/src/secure-wallet.ts lines 181-186) -/

/-- The `onPasswordRequired` callback: `window.prompt` yields `null` on
cancel or the typed string; a falsy result (null or the empty string) throws
the distinct error with message `Password required`, otherwise the password
is returned unchanged.  The thrown error is rendered as the spec's
`PasswordDenied` variant. -/
def onPasswordRequired (response : Option String) : Except CoordError String :=
  match response with
  | none => .error (.passwordDenied "Password required")
  | some password =>
    if password = "" then .error (.passwordDenied "Password required")
    else .ok password

/-- Modelled from the spec: the key-share store obtains the passphrase
through the injected provider exactly once and propagates its result as-is,
with no retry (§4.2, §9). -/
def requestPassphrase (provide : Option String → Except CoordError String)
    (response : Option String) : Except CoordError String :=
  provide response

/-! ## Ceremony state machine (spec §4.3, §5; the demo drives the real one
inside the external SDK, so it is modelled from the spec) -/

/-- Modelled from the spec: the ceremony phases of §4.3,
`awaiting-participants → computing → finalizing → {completed | aborted}`. -/
inductive Phase where
  | awaitingParticipants
  | computing
  | finalizing
  | completed
  | aborted
deriving DecidableEq

/-- Modelled from the spec: a ceremony is either a keygen or a signing
ceremony (§3). -/
inductive CeremonyKind where
  | keygen
  | sign
deriving DecidableEq

/-- Modelled from the spec: the ephemeral CeremonySession of §3 — session
identifier, kind, required participant count, set of joined participant
identifiers (insertion order irrelevant, membership matters) and the phase
marker.  Participants are identified by naturals. -/
structure CeremonySession where
  sessionId : Nat
  kind : CeremonyKind
  required : Nat
  joined : List Nat
  phase : Phase
deriving DecidableEq

/-- Modelled from the spec: a session accepts a join only while the phase is
awaiting-participants, the participant is new, and `joined < required`; it
transitions to computing exactly when the joined count reaches the required
threshold (§3, §4.3). -/
def joinSession (s : CeremonySession) (p : Nat) : CeremonySession :=
  if s.phase = .awaitingParticipants ∧ p ∉ s.joined
      ∧ s.joined.length < s.required then
    { s with joined := p :: s.joined,
             phase := if s.joined.length + 1 = s.required then .computing
                      else .awaitingParticipants }
  else s

/-- Modelled from the spec: the injected cryptographic primitive capability
of §6 (`combineSignatures`, `verifySignature`) together with the signing
ceremony's message hash, vault public key and the partial signature
contributions collected from the participants. -/
structure SignContext (Contrib Sig Hash Pk : Type) where
  combine : List Contrib → Sig
  verify : Hash → Sig → Pk → Bool
  messageHash : Hash
  pubKey : Pk
  contribs : List Contrib

/-- Modelled from the spec: finalizing a signing ceremony combines the
partial signature contributions into one final signature and validates it
against the original message hash before releasing it; an invalid
combination releases nothing (§4.3). -/
def finalizeSignature {C S H P : Type} (ctx : SignContext C S H P) : Option S :=
  let sig := ctx.combine ctx.contribs
  if ctx.verify ctx.messageHash sig ctx.pubKey then some sig else none

/-- Modelled from the spec: a ceremony's full state — the session plus the
artifacts it may produce: the participants whose KeyShare has been persisted
and the released signature (§4.3). -/
structure CeremonyState (Sig : Type) where
  session : CeremonySession
  persistedShares : List Nat
  releasedSig : Option Sig
deriving DecidableEq

/-- Modelled from the spec: the events a ceremony reacts to — participant
joins, disconnects and cancellations, and the completion of the computing
and finalizing phases (§4.3, §5). -/
inductive Event where
  | join (p : Nat)
  | disconnect (p : Nat)
  | cancel (p : Nat)
  | computeDone
  | finalizeDone
deriving DecidableEq

/-- The session transitions to the terminal aborted phase; artifacts are
untouched (none were ever produced before completion). -/
def abortState {S : Type} (st : CeremonyState S) : CeremonyState S :=
  { st with session := { st.session with phase := .aborted } }

/-- Modelled from the spec: one transition of the ceremony state machine
(§4.3, §5).  A disconnect during computing or finalizing aborts the whole
ceremony; a cancel in any non-terminal phase aborts it; computing finishes
into finalizing; finalizing persists the key shares (keygen) or releases the
combined, validated signature (signing) — an invalid signature aborts.
Terminal phases absorb every event. -/
def step {C S H P : Type} (ctx : SignContext C S H P)
    (st : CeremonyState S) (e : Event) : CeremonyState S :=
  match e with
  | .join p => { st with session := joinSession st.session p }
  | .disconnect p =>
    match st.session.phase with
    | .awaitingParticipants =>
      { st with session := { st.session with joined := st.session.joined.erase p } }
    | .computing => abortState st
    | .finalizing => abortState st
    | _ => st
  | .cancel _ =>
    match st.session.phase with
    | .awaitingParticipants => abortState st
    | .computing => abortState st
    | .finalizing => abortState st
    | _ => st
  | .computeDone =>
    if st.session.phase = .computing then
      { st with session := { st.session with phase := .finalizing } }
    else st
  | .finalizeDone =>
    if st.session.phase = .finalizing then
      match st.session.kind with
      | .keygen =>
        { st with session := { st.session with phase := .completed },
                  persistedShares := st.session.joined }
      | .sign =>
        match finalizeSignature ctx with
        | some sig =>
          { st with session := { st.session with phase := .completed },
                    releasedSig := some sig }
        | none => abortState st
    else st

/-- A ceremony execution: fold the step function over an event trace. -/
def run {C S H P : Type} (ctx : SignContext C S H P)
    (st : CeremonyState S) (es : List Event) : CeremonyState S :=
  es.foldl (step ctx) st

/-- Modelled from the spec: a freshly started ceremony — nobody joined,
awaiting participants, no artifact (§4.4). -/
def initCeremony {S : Type} (sid : Nat) (kind : CeremonyKind)
    (required : Nat) : CeremonyState S :=
  { session := { sessionId := sid, kind := kind, required := required,
                 joined := [], phase := .awaitingParticipants },
    persistedShares := [], releasedSig := none }

/-! ## Vault registry (spec §4.5, modelled from the spec; the demo's analog
is the module-level signing state of src/src/secure-wallet.ts) -/

/-- The demo's PendingTxRequest (src/src/secure-wallet.ts lines 77-83),
with the device identified by a natural. -/
structure PendingTxRequest where
  fromDevice : Nat
  toAddress : String
  amount : String
  chain : String
deriving DecidableEq

/-- Modelled from the spec: the Vault Registry state (§4.5) — a fresh
session-id counter and the active CeremonySession of each vault id —
together with the demo's module-level pending transaction and shared signing
payload (src/src/secure-wallet.ts lines 91-94). -/
structure RegistryState where
  nextSessionId : Nat
  active : List (Nat × CeremonySession)
  pendingTransaction : Option PendingTxRequest
  sharedPayload : Option String
deriving DecidableEq

/-- The active ceremony session of a vault, if any. -/
def activeFor (st : RegistryState) (v : Nat) : Option CeremonySession :=
  (st.active.find? (fun e => e.1 == v)).map (fun e => e.2)

/-- A freshly started session: nobody joined, awaiting participants. -/
def freshSession (sid : Nat) (k : CeremonyKind) (req : Nat) : CeremonySession :=
  { sessionId := sid, kind := k, required := req, joined := [],
    phase := .awaitingParticipants }

/-- The registry state right after a signing ceremony was initiated for
vault `v`: the session-id counter advanced, the fresh session active, the
pending transaction and the shared signing payload published
(src/src/secure-wallet.ts lines 408-417). -/
def afterInitiate (st : RegistryState) (v t : Nat) (tx : PendingTxRequest)
    (pl : String) : RegistryState :=
  { nextSessionId := st.nextSessionId + 1
    active := (v, freshSession st.nextSessionId .sign t) :: st.active
    pendingTransaction := some tx
    sharedPayload := some pl }

/-- Modelled from the spec: `initiateSigning` starts a `sign` CeremonySession
with `required = t` and publishes the pending transaction and joinable
session payload; while a ceremony for the vault is active it fails with
`CeremonyAlreadyActive` and returns no new state (§4.4, §4.5). -/
def initiateSigning (st : RegistryState) (v t : Nat) (tx : PendingTxRequest)
    (pl : String) : Except CoordError (Nat × RegistryState) :=
  match activeFor st v with
  | some _ => .error .ceremonyAlreadyActive
  | none => .ok (st.nextSessionId, afterInitiate st v t tx pl)

/-- Modelled from the spec: `createVault` starts a `keygen` CeremonySession
with `required = participantCount`, guarded by the same active-session check
(§4.4, §4.5). -/
def createVault (st : RegistryState) (v n : Nat) (pl : String) :
    Except CoordError (Nat × RegistryState) :=
  match activeFor st v with
  | some _ => .error .ceremonyAlreadyActive
  | none =>
    .ok (st.nextSessionId,
      { nextSessionId := st.nextSessionId + 1
        active := (v, freshSession st.nextSessionId .keygen n) :: st.active
        pendingTransaction := st.pendingTransaction
        sharedPayload := some pl })

/-- The registry after the active session of vault `v` was torn down by a
cancellation: the session is destroyed, and the pending transaction and
shared payload are cleared exactly as `rejectTransaction` does in
src/src/secure-wallet.ts lines 443-460. -/
def clearActive (st : RegistryState) (v : Nat) : RegistryState :=
  { st with
    active := st.active.filter (fun e => !(e.1 == v))
    pendingTransaction := none
    sharedPayload := none }

/-- Modelled from the spec: any participant may cancel a ceremony; the
session becomes aborted and is destroyed, so the registry afterwards shows
no active session for the vault (§3, §5). -/
def cancelCeremony (st : RegistryState) (v : Nat) :
    Option CeremonySession × RegistryState :=
  match activeFor st v with
  | none => (none, st)
  | some s => (some { s with phase := .aborted }, clearActive st v)

/-- Modelled from the spec: a completed ceremony's session is destroyed and
its registry slot released (§3, §4.5). -/
def completeCeremony (st : RegistryState) (v : Nat) : RegistryState :=
  { st with active := st.active.filter (fun e => !(e.1 == v)) }

/-! ## prepareSigning (spec §4.4) -/

/-- Modelled from the spec: the SigningRequest of §3 — prepared transaction
payload, derived message hashes, destination, amount and chain. -/
structure SigningRequest (Payload Hash : Type) where
  payload : Payload
  messageHashes : List Hash
  destination : String
  amount : Int
  chain : String

/-- Modelled from the spec: `prepareSigning(vault, destination, amount,
chain)` validates `amount > 0` and that the destination is well-formed for
the chain — the empty destination never is (§8 scenario) — failing with
`InvalidTransactionParams` and leaving the registry untouched; otherwise it
computes the payload and message hashes via the injected
transaction-encoding capability (§4.4, §6).  The demo itself only guards the
empty destination (`initiateTransaction`, src/src/secure-wallet.ts lines
359-366) and delegates the rest to the external SDK. -/
def prepareSigning {Payload Hash : Type}
    (encodeTx : Nat → String → String → Int → Payload × List Hash)
    (addrOk : String → String → Bool) (st : RegistryState) (vault : Nat)
    (destination : String) (amount : Int) (chain : String) :
    Except CoordError (SigningRequest Payload Hash) × RegistryState :=
  if amount ≤ 0 then (.error .invalidTransactionParams, st)
  else if destination = "" ∨ addrOk chain destination = false then
    (.error .invalidTransactionParams, st)
  else
    (.ok { payload := (encodeTx vault chain destination amount).1
           messageHashes := (encodeTx vault chain destination amount).2
           destination := destination
           amount := amount
           chain := chain }, st)

/-! ## deleteVault (src/src/secure-wallet.ts lines 553-573,
src/unnamed/part_001 lines 468-486) -/

/-- One device's wallet-relevant state: the DeviceState fields that
`deleteVault` touches (src/src/secure-wallet.ts lines 55-74), together with
the SDK-side stores the call reaches through `sdk.deleteVault` — the local
KeyShare entries `(vaultId, share)` and the vault-registry ids.  The two
store fields are modelled from the spec: `deleteVault(vault)` deletes the
local KeyShare and the Vault Registry entry (§4.2, §4.4, §4.5). -/
structure DeviceWallet where
  hasSdk : Bool
  vault : Option Nat
  solanaAddress : Option String
  balance : Option Int
  status : String
  keyShares : List (Nat × Nat)
  registry : List Nat
deriving DecidableEq

/-- `deleteVault` from src/src/secure-wallet.ts: returns unchanged when the
device has no SDK or no vault (the guard) or when the user dismisses the
confirm dialog; otherwise the SDK-side deletion removes the vault's KeyShare
and registry entry and the device state fields are reset. -/
def deleteVault (confirmed : Bool) (w : DeviceWallet) : DeviceWallet :=
  match w.vault with
  | none => w
  | some vid =>
    if w.hasSdk then
      if confirmed then
        { w with
          vault := none
          solanaAddress := none
          balance := none
          status := "Vault deleted"
          keyShares := w.keyShares.filter (fun kv => !(kv.1 == vid))
          registry := w.registry.filter (fun i => !(i == vid)) }
      else w
    else w

/-! ## PrefixedStorage over localStorage (src/src/secure-wallet.ts lines
9-46) -/

/-- A JS string, as its list of characters. -/
abbrev Str := List Char

/-- `localStorage.getItem`: the value stored under a key, if any.  The
browser store keeps string keys unique; it is modelled as an ordered
association list. -/
def getItem : List (Str × Str) → Str → Option Str
  | [], _ => none
  | kv :: rest, k => if kv.1 == k then some kv.2 else getItem rest k

/-- `localStorage.setItem`: replace the value in place when the key exists,
otherwise append the new entry. -/
def setItem : List (Str × Str) → Str → Str → List (Str × Str)
  | [], k, v => [(k, v)]
  | kv :: rest, k, v =>
    if kv.1 == k then (k, v) :: rest else kv :: setItem rest k v

/-- `localStorage.removeItem`: drop the entry stored under the key. -/
def removeItem (st : List (Str × Str)) (k : Str) : List (Str × Str) :=
  st.filter (fun kv => !(kv.1 == k))

namespace PrefixedStorage

/-- The key prefix `"p:"` every stored key of the adapter starts with. -/
def pfx (p : Str) : Str := p ++ [':']

/-- The stored key, the template literal `prefix:key` of the source. -/
def fullKey (p k : Str) : Str := pfx p ++ k

/-- `PrefixedStorage.get`: read `p:k`; a falsy raw value (absent key or the
empty string) yields null, otherwise the raw value is parsed
(`JSON.parse`, injected here as `parse`). -/
def get {V : Type} (parse : Str → Option V) (p : Str)
    (st : List (Str × Str)) (k : Str) : Option V :=
  match getItem st (fullKey p k) with
  | none => none
  | some raw => if raw = [] then none else parse raw

/-- `PrefixedStorage.set`: serialize (`JSON.stringify`, injected as
`stringify`) and store under `p:k`. -/
def set {V : Type} (stringify : V → Str) (p : Str) (st : List (Str × Str))
    (k : Str) (v : V) : List (Str × Str) :=
  setItem st (fullKey p k) (stringify v)

/-- `PrefixedStorage.remove`: remove the entry stored under `p:k`. -/
def remove (p : Str) (st : List (Str × Str)) (k : Str) : List (Str × Str) :=
  removeItem st (fullKey p k)

/-- `PrefixedStorage.clear`: collect every stored key starting with `p:` and
remove them all. -/
def clear (p : Str) (st : List (Str × Str)) : List (Str × Str) :=
  st.filter (fun kv => !(pfx p).isPrefixOf kv.1)

/-- `PrefixedStorage.list`: every stored key starting with `p:`, with
`key.slice(prefix.length + 1)` applied. -/
def list (p : Str) (st : List (Str × Str)) : List Str :=
  (st.filter (fun kv => (pfx p).isPrefixOf kv.1)).map
    (fun kv => kv.1.drop (p.length + 1))

end PrefixedStorage

/-! ## Concrete fixtures for evaluations -/

/-- The empty registry. -/
def emptyRegistry : RegistryState :=
  { nextSessionId := 0, active := [], pendingTransaction := none,
    sharedPayload := none }

/-- A concrete pending transaction. -/
def demoTx : PendingTxRequest :=
  { fromDevice := 0, toAddress := "addrX", amount := "0.001", chain := "Solana" }

/-- A second concrete pending transaction. -/
def demoTx2 : PendingTxRequest :=
  { fromDevice := 1, toAddress := "addrY", amount := "0.002", chain := "Solana" }

/-- A concrete device wallet holding vault 5. -/
def demoWallet : DeviceWallet :=
  { hasSdk := true, vault := some 5, solanaAddress := some "addr",
    balance := some 1, status := "Vault ready", keyShares := [(5, 99)],
    registry := [5] }

/-- A concrete transaction encoder for evaluations: payload 1, one message
hash 2. -/
def demoEncoder : Nat → String → String → Int → Nat × List Nat :=
  fun _ _ _ _ => (1, [2])

/-! ## Theorems -/

/-- C10 counterexample: if the single `initializeSDK()` call fails inside
`initialize()` (so no call has yet completed successfully), `getSDK()` does
not fail — it returns the cached, never-initialized instance — contradicting
the claimed equivalence. -/
theorem c10_getSDK_counterexample :
    (initSDK false sdkInit).1 = .error .initFailed
    ∧ getSDK (initSDK false sdkInit).2 ≠ .error .notReady
    ∧ getSDK (initSDK false sdkInit).2 = .ok 0 := by
  refine ⟨rfl, ?_, rfl⟩
  intro hcontra
  have : (Except.ok 0 : Except SdkError Nat) = .error .notReady := hcontra
  exact Except.noConfusion this

/-- After at least one `initializeSDK()` call the module state is pinned:
instance 0 is cached and exactly one construction happened. -/
theorem runSDK_ne_nil (bs : List Bool) (h : bs ≠ []) :
    runSDK bs = { inst := some 0, nextId := 1 } := by
  match bs with
  | [] => exact absurd rfl h
  | b :: bs' =>
    have hstep : (initSDK b sdkInit).2 = { inst := some 0, nextId := 1 } := by
      cases b <;> rfl
    have haux : ∀ cs : List Bool,
        cs.foldl (fun st c => (initSDK c st).2) { inst := some 0, nextId := 1 }
          = { inst := some 0, nextId := 1 } := by
      intro cs
      induction cs with
      | nil => rfl
      | cons c cs ih => simpa [List.foldl_cons, initSDK] using ih
    calc runSDK (b :: bs')
        = bs'.foldl (fun st c => (initSDK c st).2) (initSDK b sdkInit).2 := rfl
      _ = { inst := some 0, nextId := 1 } := by rw [hstep]; exact haux bs'

/-- C10 (amended): `getSDK()` fails with the not-initialized error iff no
`initializeSDK()` call has been made at all — a call whose `initialize()`
step fails still caches the constructed instance — and once any call has been
made, every later `initializeSDK()` call returns the same cached instance
without constructing or initializing a new one, and `getSDK()` returns that
same instance. -/
theorem c10_getSDK_singleton (bs : List Bool) (b : Bool) (h : bs ≠ []) :
    getSDK (runSDK []) = .error .notReady
    ∧ getSDK (runSDK bs) = .ok 0
    ∧ (initSDK b (runSDK bs)).1 = .ok 0
    ∧ (initSDK b (runSDK bs)).2 = runSDK bs := by
  have hrun := runSDK_ne_nil bs h
  refine ⟨rfl, ?_, ?_, ?_⟩ <;> rw [hrun] <;> rfl

/-- C10 witness: the amended claim evaluated on the one-call trace. -/
theorem c10_getSDK_singleton_witness :
    getSDK (runSDK []) = .error .notReady
    ∧ getSDK (runSDK [true]) = .ok 0
    ∧ (initSDK false (runSDK [true])).1 = .ok 0
    ∧ (initSDK false (runSDK [true])).2 = runSDK [true] :=
  c10_getSDK_singleton [true] false (by decide)

/-- C7: a denied or cancelled password prompt (null or empty response) makes
the callback fail with the distinct password-denied error, which the
passphrase request propagates as-is with no retry and which is
distinguishable from transport errors; any non-empty response is returned
unchanged as the passphrase. -/
theorem c7_password_denied (r : Option String) (s : String)
    (hdeny : r = none ∨ r = some "") (hs : s ≠ "") :
    onPasswordRequired r = .error (.passwordDenied "Password required")
    ∧ onPasswordRequired (some s) = .ok s
    ∧ (∀ m, CoordError.passwordDenied m ≠ .transportUnavailable)
    ∧ requestPassphrase onPasswordRequired r = onPasswordRequired r := by
  refine ⟨?_, ?_, ?_, rfl⟩
  · rcases hdeny with h | h <;> subst h <;> simp [onPasswordRequired]
  · simp [onPasswordRequired, hs]
  · intro m
    exact fun hcontra => CoordError.noConfusion hcontra

/-- C7 witness: the callback evaluated on a cancelled prompt and on the
concrete password `hunter2`. -/
theorem c7_password_denied_witness :
    onPasswordRequired none = .error (.passwordDenied "Password required")
    ∧ onPasswordRequired (some "hunter2") = .ok "hunter2"
    ∧ (∀ m, CoordError.passwordDenied m ≠ .transportUnavailable)
    ∧ requestPassphrase onPasswordRequired none = onPasswordRequired none :=
  c7_password_denied none "hunter2" (Or.inl rfl) (by decide)

section CeremonyLemmas

variable {C S H P : Type} (ctx : SignContext C S H P)

/-- Every event is absorbed in the terminal aborted phase. -/
theorem step_aborted (st : CeremonyState S) (e : Event)
    (h : st.session.phase = .aborted) : step ctx st e = st := by
  cases e <;> simp [step, joinSession, h]

/-- Every event is absorbed in the terminal completed phase. -/
theorem step_completed (st : CeremonyState S) (e : Event)
    (h : st.session.phase = .completed) : step ctx st e = st := by
  cases e <;> simp [step, joinSession, h]

/-- A whole trace is absorbed in the aborted phase. -/
theorem run_aborted (st : CeremonyState S) (es : List Event)
    (h : st.session.phase = .aborted) : run ctx st es = st := by
  induction es with
  | nil => rfl
  | cons e es ih => simpa [run, List.foldl_cons, step_aborted ctx st e h] using ih

/-- Before completion a ceremony holds no artifact: no persisted key share
and no released signature. -/
def goodArtifacts (st : CeremonyState S) : Prop :=
  st.session.phase ≠ .completed → st.persistedShares = [] ∧ st.releasedSig = none

/-- The join guard, spelled out: when it fires, the participant is added and
the phase advances exactly on reaching the threshold. -/
theorem joinSession_pos (s : CeremonySession) (p : Nat)
    (hc : s.phase = .awaitingParticipants ∧ p ∉ s.joined
      ∧ s.joined.length < s.required) :
    joinSession s p
      = { s with
          joined := p :: s.joined
          phase := (if s.joined.length + 1 = s.required then Phase.computing
            else Phase.awaitingParticipants) } := by
  unfold joinSession
  rw [if_pos hc]

/-- When the join guard does not fire, the session is unchanged. -/
theorem joinSession_neg (s : CeremonySession) (p : Nat)
    (hc : ¬(s.phase = .awaitingParticipants ∧ p ∉ s.joined
      ∧ s.joined.length < s.required)) :
    joinSession s p = s := by
  unfold joinSession
  rw [if_neg hc]

theorem goodArtifacts_step (st : CeremonyState S) (e : Event)
    (h : goodArtifacts st) : goodArtifacts (step ctx st e) := by
  by_cases hcpl : st.session.phase = .completed
  · rw [step_completed ctx st e hcpl]; exact h
  · obtain ⟨h1, h2⟩ := h hcpl
    cases e with
    | join p =>
      intro _
      exact ⟨h1, h2⟩
    | disconnect p =>
      intro _
      cases hph : st.session.phase <;> simp [step, hph, abortState] <;> exact ⟨h1, h2⟩
    | cancel p =>
      intro _
      cases hph : st.session.phase <;> simp [step, hph, abortState] <;> exact ⟨h1, h2⟩
    | computeDone =>
      intro _
      by_cases hph : st.session.phase = .computing <;> simp [step, hph] <;> exact ⟨h1, h2⟩
    | finalizeDone =>
      by_cases hph : st.session.phase = .finalizing
      · cases hk : st.session.kind with
        | keygen =>
          intro hne
          exact absurd (by simp [step, hph, hk]) hne
        | sign =>
          cases hfin : finalizeSignature ctx with
          | none =>
            intro _
            constructor
            · simpa [step, hph, hk, hfin, abortState] using h1
            · simpa [step, hph, hk, hfin, abortState] using h2
          | some sig =>
            intro hne
            exact absurd (by simp [step, hph, hk, hfin]) hne
      · intro _
        constructor
        · simpa [step, hph] using h1
        · simpa [step, hph] using h2

theorem goodArtifacts_run (st : CeremonyState S) (es : List Event)
    (h : goodArtifacts st) : goodArtifacts (run ctx st es) := by
  induction es generalizing st with
  | nil => exact h
  | cons e es ih => exact ih _ (goodArtifacts_step ctx st e h)

/-- A released signature is always the combination of the contributions and
always passes verification. -/
def goodSignature (st : CeremonyState S) : Prop :=
  ∀ s, st.releasedSig = some s →
    s = ctx.combine ctx.contribs ∧ ctx.verify ctx.messageHash s ctx.pubKey = true

theorem goodSignature_step (st : CeremonyState S) (e : Event)
    (h : goodSignature ctx st) : goodSignature ctx (step ctx st e) := by
  cases e with
  | join p => exact h
  | disconnect p =>
    intro s hs
    refine h s ?_
    cases hph : st.session.phase <;> simpa [step, hph, abortState] using hs
  | cancel p =>
    intro s hs
    refine h s ?_
    cases hph : st.session.phase <;> simpa [step, hph, abortState] using hs
  | computeDone =>
    intro s hs
    refine h s ?_
    by_cases hph : st.session.phase = .computing <;> simpa [step, hph] using hs
  | finalizeDone =>
    by_cases hph : st.session.phase = .finalizing
    · cases hk : st.session.kind with
      | keygen =>
        intro s hs
        exact h s (by simpa [step, hph, hk] using hs)
      | sign =>
        cases hfin : finalizeSignature ctx with
        | none =>
          intro s hs
          exact h s (by simpa [step, hph, hk, hfin, abortState] using hs)
        | some sig =>
          intro s hs
          have hsig : sig = s := by simpa [step, hph, hk, hfin] using hs
          subst hsig
          have hfin' := hfin
          simp only [finalizeSignature] at hfin'
          split at hfin'
          · rename_i hv
            have hcomb := Option.some.inj hfin'
            exact ⟨hcomb.symm, hcomb ▸ hv⟩
          · exact absurd hfin' (by simp)
    · intro s hs
      exact h s (by simpa [step, hph] using hs)

theorem goodSignature_run (st : CeremonyState S) (es : List Event)
    (h : goodSignature ctx st) : goodSignature ctx (run ctx st es) := by
  induction es generalizing st with
  | nil => exact h
  | cons e es ih => exact ih _ (goodSignature_step ctx st e h)

/-- The required threshold of a session never changes. -/
theorem required_step (st : CeremonyState S) (e : Event) :
    (step ctx st e).session.required = st.session.required := by
  cases e with
  | join p =>
    by_cases hc : st.session.phase = .awaitingParticipants ∧ p ∉ st.session.joined
        ∧ st.session.joined.length < st.session.required
    · show (joinSession st.session p).required = st.session.required
      rw [joinSession_pos st.session p hc]
    · show (joinSession st.session p).required = st.session.required
      rw [joinSession_neg st.session p hc]
  | disconnect p => cases hph : st.session.phase <;> simp [step, hph, abortState]
  | cancel p => cases hph : st.session.phase <;> simp [step, hph, abortState]
  | computeDone => by_cases hph : st.session.phase = .computing <;> simp [step, hph]
  | finalizeDone =>
    by_cases hph : st.session.phase = .finalizing
    · cases hk : st.session.kind with
      | keygen => simp [step, hph, hk]
      | sign => cases hfin : finalizeSignature ctx <;> simp [step, hph, hk, hfin, abortState]
    · simp [step, hph]

theorem required_run (st : CeremonyState S) (es : List Event) :
    (run ctx st es).session.required = st.session.required := by
  induction es generalizing st with
  | nil => rfl
  | cons e es ih => rw [run, List.foldl_cons, ← run, ih, required_step]

/-- Joined participants are distinct, and once the ceremony has started
computing (or reached any later phase except via abortion from awaiting)
the number of joined participants equals the required threshold. -/
def goodJoins (st : CeremonyState S) : Prop :=
  st.session.joined.Nodup
  ∧ ((st.session.phase = .computing ∨ st.session.phase = .finalizing
      ∨ st.session.phase = .completed) →
     st.session.joined.length = st.session.required)

/-- In the awaiting or aborted phase the join-count obligation is vacuous. -/
theorem goodJoins_vacuous (st : CeremonyState S)
    (hnd : st.session.joined.Nodup)
    (hph : st.session.phase = .awaitingParticipants ∨ st.session.phase = .aborted) :
    goodJoins st := by
  refine ⟨hnd, fun hx => ?_⟩
  rcases hph with hph | hph <;> rcases hx with hx | hx | hx <;>
    rw [hph] at hx <;> exact Phase.noConfusion hx

theorem goodJoins_step (st : CeremonyState S) (e : Event)
    (h : goodJoins st) : goodJoins (step ctx st e) := by
  obtain ⟨hnd, hfull⟩ := h
  cases e with
  | join p =>
    by_cases hc : st.session.phase = .awaitingParticipants ∧ p ∉ st.session.joined
        ∧ st.session.joined.length < st.session.required
    · have hses : (step ctx st (.join p)).session
          = { st.session with
              joined := p :: st.session.joined
              phase := (if st.session.joined.length + 1 = st.session.required
                then Phase.computing else Phase.awaitingParticipants) } := by
        show joinSession st.session p = _
        exact joinSession_pos st.session p hc
      constructor
      · rw [hses]
        exact List.nodup_cons.mpr ⟨hc.2.1, hnd⟩
      · rw [hses]
        intro hx
        by_cases ht : st.session.joined.length + 1 = st.session.required
        · simpa using ht
        · exfalso
          rcases hx with hx | hx | hx <;> simp [ht] at hx
    · have hses : step ctx st (.join p) = st := by
        show { st with session := joinSession st.session p } = st
        rw [joinSession_neg st.session p hc]
      rw [hses]
      exact ⟨hnd, hfull⟩
  | disconnect p =>
    cases hph : st.session.phase with
    | awaitingParticipants =>
      have hses : step ctx st (.disconnect p)
          = { st with session := { st.session with joined := st.session.joined.erase p } } := by
        simp [step, hph]
      rw [hses]
      exact goodJoins_vacuous _ (hnd.erase p) (Or.inl hph)
    | computing =>
      have hses : step ctx st (.disconnect p) = abortState st := by simp [step, hph]
      rw [hses]
      exact goodJoins_vacuous _ hnd (Or.inr rfl)
    | finalizing =>
      have hses : step ctx st (.disconnect p) = abortState st := by simp [step, hph]
      rw [hses]
      exact goodJoins_vacuous _ hnd (Or.inr rfl)
    | completed =>
      have hses : step ctx st (.disconnect p) = st := by simp [step, hph]
      rw [hses]
      exact ⟨hnd, hfull⟩
    | aborted =>
      have hses : step ctx st (.disconnect p) = st := by simp [step, hph]
      rw [hses]
      exact ⟨hnd, hfull⟩
  | cancel p =>
    cases hph : st.session.phase with
    | awaitingParticipants =>
      have hses : step ctx st (.cancel p) = abortState st := by simp [step, hph]
      rw [hses]
      exact goodJoins_vacuous _ hnd (Or.inr rfl)
    | computing =>
      have hses : step ctx st (.cancel p) = abortState st := by simp [step, hph]
      rw [hses]
      exact goodJoins_vacuous _ hnd (Or.inr rfl)
    | finalizing =>
      have hses : step ctx st (.cancel p) = abortState st := by simp [step, hph]
      rw [hses]
      exact goodJoins_vacuous _ hnd (Or.inr rfl)
    | completed =>
      have hses : step ctx st (.cancel p) = st := by simp [step, hph]
      rw [hses]
      exact ⟨hnd, hfull⟩
    | aborted =>
      have hses : step ctx st (.cancel p) = st := by simp [step, hph]
      rw [hses]
      exact ⟨hnd, hfull⟩
  | computeDone =>
    by_cases hph : st.session.phase = .computing
    · have hses : step ctx st .computeDone
          = { st with session := { st.session with phase := Phase.finalizing } } := by
        simp [step, hph]
      rw [hses]
      exact ⟨hnd, fun _ => hfull (Or.inl hph)⟩
    · have hses : step ctx st .computeDone = st := by simp [step, hph]
      rw [hses]
      exact ⟨hnd, hfull⟩
  | finalizeDone =>
    by_cases hph : st.session.phase = .finalizing
    · cases hk : st.session.kind with
      | keygen =>
        have hses : step ctx st .finalizeDone
            = { st with
                session := { st.session with phase := Phase.completed }
                persistedShares := st.session.joined } := by
          simp [step, hph, hk]
        rw [hses]
        exact ⟨hnd, fun _ => hfull (Or.inr (Or.inl hph))⟩
      | sign =>
        cases hfin : finalizeSignature ctx with
        | some sig =>
          have hses : step ctx st .finalizeDone
              = { st with
                  session := { st.session with phase := Phase.completed }
                  releasedSig := some sig } := by
            simp [step, hph, hk, hfin]
          rw [hses]
          exact ⟨hnd, fun _ => hfull (Or.inr (Or.inl hph))⟩
        | none =>
          have hses : step ctx st .finalizeDone = abortState st := by
            simp [step, hph, hk, hfin]
          rw [hses]
          exact goodJoins_vacuous _ hnd (Or.inr rfl)
    · have hses : step ctx st .finalizeDone = st := by simp [step, hph]
      rw [hses]
      exact ⟨hnd, hfull⟩

theorem goodJoins_run (st : CeremonyState S) (es : List Event)
    (h : goodJoins st) : goodJoins (run ctx st es) := by
  induction es generalizing st with
  | nil => exact h
  | cons e es ih => exact ih _ (goodJoins_step ctx st e h)

/-- Dedup length is monotone under list inclusion. -/
theorem dedup_length_mono {l₁ l₂ : List Nat} (h : l₁ ⊆ l₂) :
    l₁.dedup.length ≤ l₂.dedup.length := by
  refine List.Subperm.length_le (List.Nodup.subperm (List.nodup_dedup l₁) ?_)
  intro x hx
  exact List.mem_dedup.mpr (h (List.mem_dedup.mp hx))

/-- A run made only of joins, starting while awaiting participants, stays in
the awaiting phase as long as even the complete pool of candidate
participants is too small to reach the threshold. -/
theorem join_run_awaiting (ps : List Nat) (st : CeremonyState S)
    (hph : st.session.phase = .awaitingParticipants)
    (hnd : st.session.joined.Nodup)
    (hm : (st.session.joined ++ ps).dedup.length < st.session.required) :
    (run ctx st (ps.map .join)).session.phase = .awaitingParticipants := by
  induction ps generalizing st with
  | nil => simpa [run] using hph
  | cons p ps ih =>
    rw [List.map_cons, run, List.foldl_cons, ← run]
    by_cases hc : st.session.phase = .awaitingParticipants ∧ p ∉ st.session.joined
        ∧ st.session.joined.length < st.session.required
    · have hnd' : (p :: st.session.joined).Nodup := List.nodup_cons.mpr ⟨hc.2.1, hnd⟩
      have hsub : p :: st.session.joined ⊆ st.session.joined ++ p :: ps := by
        intro x hx
        rcases List.mem_cons.mp hx with hx | hx
        · subst hx
          exact List.mem_append.mpr (Or.inr (List.mem_cons_self _ _))
        · exact List.mem_append.mpr (Or.inl hx)
      have hlen : st.session.joined.length + 1
          ≤ (st.session.joined ++ p :: ps).dedup.length := by
        have hmono := dedup_length_mono hsub
        rwa [List.Nodup.dedup hnd', List.length_cons] at hmono
      have hlt' : st.session.joined.length + 1 < st.session.required :=
        lt_of_le_of_lt hlen hm
      have hses : (step ctx st (.join p)).session
          = { st.session with
              joined := p :: st.session.joined
              phase := Phase.awaitingParticipants } := by
        show joinSession st.session p = _
        rw [joinSession_pos st.session p hc]
        rw [if_neg (Nat.ne_of_lt hlt')]
      apply ih
      · rw [hses]
      · rw [hses]
        exact hnd'
      · rw [hses]
        show ((p :: st.session.joined) ++ ps).dedup.length < st.session.required
        have hperm : List.Perm ((p :: st.session.joined) ++ ps)
            (st.session.joined ++ p :: ps) := by
          simpa using List.perm_middle.symm
        rw [hperm.dedup.length_eq]
        exact hm
    · have hses : step ctx st (.join p) = st := by
        show { st with session := joinSession st.session p } = st
        rw [joinSession_neg st.session p hc]
      rw [hses]
      apply ih st hph hnd
      refine lt_of_le_of_lt (dedup_length_mono ?_) hm
      intro x hx
      rcases List.mem_append.mp hx with hx | hx
      · exact List.mem_append.mpr (Or.inl hx)
      · exact List.mem_append.mpr (Or.inr (List.mem_cons_of_mem _ hx))
end CeremonyLemmas

/-- C1: once a ceremony (keygen or signing) is in the computing phase, a
disconnect of any participant drives it — through every subsequent event —
into the terminal aborted phase, with no persisted KeyShare and no released
signature: an aborted ceremony never leaves a usable artifact. -/
theorem c1_disconnect_all_or_nothing {C S H P : Type} (ctx : SignContext C S H P)
    (sid n : Nat) (kind : CeremonyKind) (t₁ t₂ : List Event) (p : Nat)
    (h : (run ctx (initCeremony sid kind n) t₁).session.phase = .computing) :
    (run ctx (initCeremony sid kind n) (t₁ ++ Event.disconnect p :: t₂)).session.phase
        = .aborted
    ∧ (run ctx (initCeremony sid kind n) (t₁ ++ Event.disconnect p :: t₂)).persistedShares
        = []
    ∧ (run ctx (initCeremony sid kind n) (t₁ ++ Event.disconnect p :: t₂)).releasedSig
        = none := by
  have hga : goodArtifacts (run ctx (initCeremony sid kind n) t₁) :=
    goodArtifacts_run ctx _ t₁ (fun _ => ⟨rfl, rfl⟩)
  obtain ⟨h1, h2⟩ := hga (by rw [h]; simp)
  have hsplit : run ctx (initCeremony sid kind n) (t₁ ++ Event.disconnect p :: t₂)
      = run ctx (step ctx (run ctx (initCeremony sid kind n) t₁) (.disconnect p)) t₂ := by
    simp [run, List.foldl_append, List.foldl_cons]
  have hstep : step ctx (run ctx (initCeremony sid kind n) t₁) (.disconnect p)
      = abortState (run ctx (initCeremony sid kind n) t₁) := by
    simp [step, h]
  rw [hsplit, hstep, run_aborted ctx _ t₂ rfl]
  exact ⟨rfl, h1, h2⟩

/-- C1 witness: a 2-of-2 keygen ceremony that reaches computing after both
joins and then suffers a disconnect ends aborted with no artifacts. -/
theorem c1_disconnect_all_or_nothing_witness :
    (run (⟨fun _ => 0, fun _ _ _ => true, 0, 0, []⟩ : SignContext Nat Nat Nat Nat)
        (initCeremony 0 .keygen 2)
        ([Event.join 1, Event.join 2] ++ Event.disconnect 1 :: [])).session.phase
      = .aborted
    ∧ (run (⟨fun _ => 0, fun _ _ _ => true, 0, 0, []⟩ : SignContext Nat Nat Nat Nat)
        (initCeremony 0 .keygen 2)
        ([Event.join 1, Event.join 2] ++ Event.disconnect 1 :: [])).persistedShares = []
    ∧ (run (⟨fun _ => 0, fun _ _ _ => true, 0, 0, []⟩ : SignContext Nat Nat Nat Nat)
        (initCeremony 0 .keygen 2)
        ([Event.join 1, Event.join 2] ++ Event.disconnect 1 :: [])).releasedSig = none :=
  c1_disconnect_all_or_nothing _ 0 2 .keygen [Event.join 1, Event.join 2] [] 1 (by decide)

/-- C3: the signature a completed signing ceremony releases is exactly the
combination of the partial signature contributions, and it passes
`verifySignature` against the original message hash and vault public key —
validation gates the release. -/
theorem c3_released_signature_verifies {C S H P : Type} (ctx : SignContext C S H P)
    (sid n : Nat) (es : List Event) (sig : S)
    (h : (run ctx (initCeremony sid .sign n) es).releasedSig = some sig) :
    sig = ctx.combine ctx.contribs
    ∧ ctx.verify ctx.messageHash sig ctx.pubKey = true :=
  goodSignature_run ctx _ es (fun s hs => by simp [initCeremony] at hs) sig h

/-- C3 witness: a 2-party signing ceremony whose combine capability sums the
two contributions releases the signature 7, which verifies. -/
theorem c3_released_signature_verifies_witness :
    (7 : Nat) = (⟨fun l => l.foldl (· + ·) 0, fun _ s _ => s == 7, 0, 0, [3, 4]⟩ :
        SignContext Nat Nat Nat Nat).combine [3, 4]
    ∧ (⟨fun l => l.foldl (· + ·) 0, fun _ s _ => s == 7, 0, 0, [3, 4]⟩ :
        SignContext Nat Nat Nat Nat).verify 0 7 0 = true :=
  c3_released_signature_verifies
    (⟨fun l => l.foldl (· + ·) 0, fun _ s _ => s == 7, 0, 0, [3, 4]⟩ :
        SignContext Nat Nat Nat Nat)
    0 2 [Event.join 1, Event.join 2, Event.computeDone, Event.finalizeDone] 7 (by decide)

/-- C5: a keygen ceremony with `required = n` stays in awaiting-participants
after any sequence of joins involving fewer than n distinct participants (in
particular after the (n-1)-th join), and whenever it has reached computing,
finalizing or completed, exactly n distinct participants have joined. -/
theorem c5_keygen_threshold {C S H P : Type} (ctx : SignContext C S H P)
    (sid n : Nat) (ps : List Nat) (es : List Event)
    (hlt : ps.dedup.length < n)
    (hphase : (run ctx (initCeremony sid .keygen n) es).session.phase = .computing
      ∨ (run ctx (initCeremony sid .keygen n) es).session.phase = .finalizing
      ∨ (run ctx (initCeremony sid .keygen n) es).session.phase = .completed) :
    (run ctx (initCeremony sid .keygen n) (ps.map .join)).session.phase
        = .awaitingParticipants
    ∧ (run ctx (initCeremony sid .keygen n) es).session.joined.length = n
    ∧ (run ctx (initCeremony sid .keygen n) es).session.joined.Nodup := by
  have hgj : goodJoins (run ctx (initCeremony sid .keygen n) es) :=
    goodJoins_run ctx _ es ⟨List.nodup_nil, by intro hx; rcases hx with hx | hx | hx <;>
      simp [initCeremony] at hx⟩
  have hreq : (run ctx (initCeremony sid .keygen n) es).session.required = n :=
    required_run ctx _ es
  refine ⟨?_, ?_, hgj.1⟩
  · exact join_run_awaiting ctx ps _ rfl List.nodup_nil (by simpa [initCeremony] using hlt)
  · rw [hgj.2 hphase, hreq]

/-- C5 witness: with n = 2, a single join leaves the ceremony awaiting, and
the trace that does reach computing has exactly 2 distinct joins. -/
theorem c5_keygen_threshold_witness :
    (run (⟨fun _ => 0, fun _ _ _ => true, 0, 0, []⟩ : SignContext Nat Nat Nat Nat)
        (initCeremony 0 .keygen 2) ([7].map .join)).session.phase
      = .awaitingParticipants
    ∧ (run (⟨fun _ => 0, fun _ _ _ => true, 0, 0, []⟩ : SignContext Nat Nat Nat Nat)
        (initCeremony 0 .keygen 2) [Event.join 1, Event.join 2]).session.joined.length = 2
    ∧ (run (⟨fun _ => 0, fun _ _ _ => true, 0, 0, []⟩ : SignContext Nat Nat Nat Nat)
        (initCeremony 0 .keygen 2) [Event.join 1, Event.join 2]).session.joined.Nodup :=
  c5_keygen_threshold _ 0 2 [7] [Event.join 1, Event.join 2] (by decide) (by left; decide)

/-- Filtering out every entry for a vault leaves nothing to find. -/
theorem find?_beq_filter_ne (l : List (Nat × CeremonySession)) (v : Nat) :
    (l.filter (fun e => !(e.1 == v))).find? (fun e => e.1 == v) = none := by
  induction l with
  | nil => rfl
  | cons x l ih =>
    by_cases hx : x.1 = v
    · simp [List.filter_cons, hx, ih]
    · simp [List.filter_cons, List.find?, hx, ih]

/-- After `clearActive` the registry shows no active session for the vault. -/
theorem activeFor_clearActive (st : RegistryState) (v : Nat) :
    activeFor (clearActive st v) v = none := by
  simp [activeFor, clearActive, find?_beq_filter_ne]

/-- After `completeCeremony` the registry shows no active session for the
vault. -/
theorem activeFor_completeCeremony (st : RegistryState) (v : Nat) :
    activeFor (completeCeremony st v) v = none := by
  simp [activeFor, completeCeremony, find?_beq_filter_ne]

/-- C2: while a signing ceremony for a vault is active, a second
`initiateSigning` (or a `createVault`) call for the same vault fails with
`CeremonyAlreadyActive` and the active session is not replaced; once the
ceremony completes or is cancelled, a new `initiateSigning` is accepted. -/
theorem c2_single_active_session (st : RegistryState) (v t sid : Nat)
    (tx : PendingTxRequest) (pl : String) (st' : RegistryState)
    (h : initiateSigning st v t tx pl = .ok (sid, st')) :
    (∀ t₂ tx₂ pl₂, initiateSigning st' v t₂ tx₂ pl₂ = .error .ceremonyAlreadyActive)
    ∧ (∀ n pl₂, createVault st' v n pl₂ = .error .ceremonyAlreadyActive)
    ∧ activeFor st' v = some (freshSession sid .sign t)
    ∧ (∀ t₂ tx₂ pl₂, ∃ sid₂ st₂,
        initiateSigning (completeCeremony st' v) v t₂ tx₂ pl₂ = .ok (sid₂, st₂))
    ∧ (∀ t₂ tx₂ pl₂, ∃ sid₂ st₂,
        initiateSigning (cancelCeremony st' v).2 v t₂ tx₂ pl₂ = .ok (sid₂, st₂)) := by
  cases hact : activeFor st v with
  | some s => simp [initiateSigning, hact] at h
  | none =>
    simp only [initiateSigning, hact] at h
    obtain ⟨hsid, hst'⟩ := Prod.mk.injEq .. ▸ Except.ok.inj h
    subst hsid
    subst hst'
    have hactive : activeFor (afterInitiate st v t tx pl) v
        = some (freshSession st.nextSessionId .sign t) := by
      simp [activeFor, afterInitiate]
    have hcancel : (cancelCeremony (afterInitiate st v t tx pl) v).2
        = clearActive (afterInitiate st v t tx pl) v := by
      simp [cancelCeremony, hactive]
    refine ⟨?_, ?_, hactive, ?_, ?_⟩
    · intro t₂ tx₂ pl₂
      simp [initiateSigning, hactive]
    · intro n pl₂
      simp [createVault, hactive]
    · intro t₂ tx₂ pl₂
      refine ⟨(completeCeremony (afterInitiate st v t tx pl) v).nextSessionId,
        afterInitiate (completeCeremony (afterInitiate st v t tx pl) v) v t₂ tx₂ pl₂, ?_⟩
      unfold initiateSigning
      rw [activeFor_completeCeremony]
    · intro t₂ tx₂ pl₂
      refine ⟨(clearActive (afterInitiate st v t tx pl) v).nextSessionId,
        afterInitiate (clearActive (afterInitiate st v t tx pl) v) v t₂ tx₂ pl₂, ?_⟩
      rw [hcancel]
      unfold initiateSigning
      rw [activeFor_clearActive]

/-- C2 witness: on an empty registry, initiating a signing ceremony for
vault 1 makes a second initiation (and a createVault) fail, and completion
or cancellation re-enables initiation. -/
theorem c2_single_active_session_witness :
    (∀ t₂ tx₂ pl₂, initiateSigning
        (afterInitiate emptyRegistry 1 2 demoTx "payload") 1 t₂ tx₂ pl₂
        = .error .ceremonyAlreadyActive)
    ∧ (∀ n pl₂, createVault
        (afterInitiate emptyRegistry 1 2 demoTx "payload") 1 n pl₂
        = .error .ceremonyAlreadyActive)
    ∧ activeFor (afterInitiate emptyRegistry 1 2 demoTx "payload") 1
        = some (freshSession 0 .sign 2)
    ∧ (∀ t₂ tx₂ pl₂, ∃ sid₂ st₂,
        initiateSigning
          (completeCeremony (afterInitiate emptyRegistry 1 2 demoTx "payload") 1)
          1 t₂ tx₂ pl₂ = .ok (sid₂, st₂))
    ∧ (∀ t₂ tx₂ pl₂, ∃ sid₂ st₂,
        initiateSigning
          (cancelCeremony (afterInitiate emptyRegistry 1 2 demoTx "payload") 1).2
          1 t₂ tx₂ pl₂ = .ok (sid₂, st₂)) :=
  c2_single_active_session emptyRegistry 1 2 0 demoTx "payload" _ rfl

/-- C6: a signing ceremony cancelled while still awaiting its approver ends
aborted, the registry afterwards shows no active session and the pending
transaction and shared payload are cleared, and a subsequent
`initiateSigning` for the same vault succeeds with a new session id. -/
theorem c6_cancel_awaiting_signing (st : RegistryState) (v t t₂ : Nat)
    (tx tx₂ : PendingTxRequest) (pl pl₂ : String)
    (h : activeFor st v = none) :
    ∃ sid₁ st₁ st₂ sid₃ st₃,
      initiateSigning st v t tx pl = .ok (sid₁, st₁)
      ∧ activeFor st₁ v = some (freshSession sid₁ .sign t)
      ∧ (freshSession sid₁ .sign t).phase = .awaitingParticipants
      ∧ cancelCeremony st₁ v
          = (some { freshSession sid₁ .sign t with phase := .aborted }, st₂)
      ∧ activeFor st₂ v = none
      ∧ st₂.pendingTransaction = none
      ∧ st₂.sharedPayload = none
      ∧ initiateSigning st₂ v t₂ tx₂ pl₂ = .ok (sid₃, st₃)
      ∧ sid₃ ≠ sid₁ := by
  have hactive : activeFor (afterInitiate st v t tx pl) v
      = some (freshSession st.nextSessionId .sign t) := by
    simp [activeFor, afterInitiate]
  refine ⟨st.nextSessionId, afterInitiate st v t tx pl,
    clearActive (afterInitiate st v t tx pl) v, st.nextSessionId + 1,
    afterInitiate (clearActive (afterInitiate st v t tx pl) v) v t₂ tx₂ pl₂,
    ?_, hactive, rfl, ?_, activeFor_clearActive _ v, rfl, rfl, ?_, Nat.succ_ne_self _⟩
  · simp [initiateSigning, h]
  · simp [cancelCeremony, hactive]
  · simp [initiateSigning, activeFor_clearActive]
    rfl

/-- C6 witness: the cancellation scenario run on the empty registry. -/
theorem c6_cancel_awaiting_signing_witness :
    ∃ sid₁ st₁ st₂ sid₃ st₃,
      initiateSigning emptyRegistry 1 2 demoTx "payload" = .ok (sid₁, st₁)
      ∧ activeFor st₁ 1 = some (freshSession sid₁ .sign 2)
      ∧ (freshSession sid₁ .sign 2).phase = .awaitingParticipants
      ∧ cancelCeremony st₁ 1
          = (some { freshSession sid₁ .sign 2 with phase := .aborted }, st₂)
      ∧ activeFor st₂ 1 = none
      ∧ st₂.pendingTransaction = none
      ∧ st₂.sharedPayload = none
      ∧ initiateSigning st₂ 1 3 demoTx2 "payload2" = .ok (sid₃, st₃)
      ∧ sid₃ ≠ sid₁ :=
  c6_cancel_awaiting_signing emptyRegistry 1 2 3 demoTx demoTx2 "payload" "payload2" rfl

/-- C4: `prepareSigning` fails with `InvalidTransactionParams` whenever the
amount is non-positive or the destination is not well-formed for the chain —
whether empty or non-empty but rejected by the chain's address check —
leaving the registry state untouched; on a positive amount and a
chain-well-formed destination it returns the SigningRequest whose payload
and message hashes come from the transaction-encoding capability. -/
theorem c4_prepareSigning_validates {Payload Hash : Type}
    (encodeTx : Nat → String → String → Int → Payload × List Hash)
    (addrOk : String → String → Bool) (st : RegistryState) (vault : Nat)
    (d₁ d₂ d₃ chain : String) (a₁ a₂ a₃ : Int)
    (hbad : a₁ ≤ 0 ∨ d₁ = "" ∨ addrOk chain d₁ = false)
    (hpos : 0 < a₂) (hd : d₂ ≠ "") (hok : addrOk chain d₂ = true)
    (h3pos : 0 < a₃) (_h3ne : d₃ ≠ "") (h3bad : addrOk chain d₃ = false) :
    prepareSigning encodeTx addrOk st vault d₁ a₁ chain
        = (.error .invalidTransactionParams, st)
    ∧ prepareSigning encodeTx addrOk st vault d₃ a₃ chain
        = (.error .invalidTransactionParams, st)
    ∧ prepareSigning encodeTx addrOk st vault d₂ a₂ chain
        = (.ok { payload := (encodeTx vault chain d₂ a₂).1
                 messageHashes := (encodeTx vault chain d₂ a₂).2
                 destination := d₂
                 amount := a₂
                 chain := chain }, st) := by
  refine ⟨?_, ?_, ?_⟩
  · by_cases h0 : a₁ ≤ 0
    · unfold prepareSigning
      rw [if_pos h0]
    · have hd1 : d₁ = "" ∨ addrOk chain d₁ = false := by
        rcases hbad with h | h | h
        · exact absurd h h0
        · exact Or.inl h
        · exact Or.inr h
      unfold prepareSigning
      rw [if_neg h0, if_pos hd1]
  · unfold prepareSigning
    rw [if_neg (not_le.mpr h3pos), if_pos (Or.inr h3bad)]
  · unfold prepareSigning
    rw [if_neg (not_le.mpr hpos), if_neg (by simp [hd, hok])]

/-- C4 witness: the spec scenario — an empty destination with amount
1000000 on Solana fails; a non-empty destination the address check rejects
fails too; the well-formed destination succeeds with the encoder's hashes. -/
theorem c4_prepareSigning_validates_witness :
    prepareSigning demoEncoder (fun _ d => d == "addrX") emptyRegistry 0 ""
        1000000 "Solana"
      = (.error .invalidTransactionParams, emptyRegistry)
    ∧ prepareSigning demoEncoder (fun _ d => d == "addrX") emptyRegistry 0
        "badaddr" 5 "Solana"
      = (.error .invalidTransactionParams, emptyRegistry)
    ∧ prepareSigning demoEncoder (fun _ d => d == "addrX") emptyRegistry 0
        "addrX" 1000000 "Solana"
      = (.ok { payload := (demoEncoder 0 "Solana" "addrX" 1000000).1
               messageHashes := (demoEncoder 0 "Solana" "addrX" 1000000).2
               destination := "addrX"
               amount := 1000000
               chain := "Solana" }, emptyRegistry) :=
  c4_prepareSigning_validates demoEncoder (fun _ d => d == "addrX") emptyRegistry
    0 "" "addrX" "badaddr" "Solana" 1000000 1000000 5
    (Or.inr (Or.inl rfl)) (by decide) (by decide) (by decide) (by decide)
    (by decide) (by decide)

/-- Deleting when the device no longer holds a vault is a no-op. -/
theorem deleteVault_no_vault (c : Bool) (w : DeviceWallet) (h : w.vault = none) :
    deleteVault c w = w := by
  unfold deleteVault
  rw [h]

/-- C8: `deleteVault` removes the local KeyShare entries and the registry
entry of the vault, and it is idempotent — once the device no longer holds
the vault, the repeated call leaves the state unchanged and does not fail. -/
theorem c8_deleteVault_idempotent (w : DeviceWallet) (vid : Nat)
    (hv : w.vault = some vid) (hsdk : w.hasSdk = true) :
    deleteVault true (deleteVault true w) = deleteVault true w
    ∧ (deleteVault true w).vault = none
    ∧ (∀ sh, (vid, sh) ∉ (deleteVault true w).keyShares)
    ∧ vid ∉ (deleteVault true w).registry := by
  have hvault : (deleteVault true w).vault = none := by
    simp [deleteVault, hv, hsdk]
  have hks : (deleteVault true w).keyShares
      = w.keyShares.filter (fun kv => !(kv.1 == vid)) := by
    simp [deleteVault, hv, hsdk]
  have hreg : (deleteVault true w).registry
      = w.registry.filter (fun i => !(i == vid)) := by
    simp [deleteVault, hv, hsdk]
  refine ⟨deleteVault_no_vault true _ hvault, hvault, ?_, ?_⟩
  · intro sh hmem
    rw [hks] at hmem
    simpa using (List.mem_filter.mp hmem).2
  · intro hmem
    rw [hreg] at hmem
    simpa using (List.mem_filter.mp hmem).2

/-- C8 witness: deleting vault 5 from a device that holds it. -/
theorem c8_deleteVault_idempotent_witness :
    deleteVault true (deleteVault true demoWallet) = deleteVault true demoWallet
    ∧ (deleteVault true demoWallet).vault = none
    ∧ (∀ sh, (5, sh) ∉ (deleteVault true demoWallet).keyShares)
    ∧ 5 ∉ (deleteVault true demoWallet).registry :=
  c8_deleteVault_idempotent demoWallet 5 rfl rfl

/-- A prefix of a prefixed key extends to the underlying prefix: when one
`p:`-prefix is a prefix of another `q:`-prefix, `p` itself prefixes `q`. -/
theorem pfx_prefix_pfx {p q : Str}
    (h : PrefixedStorage.pfx p <+: PrefixedStorage.pfx q) : p <+: q := by
  have hlen : p.length ≤ q.length := by
    have hl := h.length_le
    simpa [PrefixedStorage.pfx] using hl
  have hp : p <+: PrefixedStorage.pfx q := (List.prefix_append p [':']).trans h
  rcases List.prefix_or_prefix_of_prefix hp (List.prefix_append q [':']) with h' | h'
  · exact h'
  · have heq : q = p := h'.eq_of_length (Nat.le_antisymm h'.length_le hlen)
    subst heq
    exact List.prefix_rfl

/-- Two mutually non-extending prefixes never prefix the same stored key. -/
theorem pfx_incomp {p q : Str} (hpq : ¬ p <+: q) (hqp : ¬ q <+: p) (w : Str)
    (h1 : PrefixedStorage.pfx p <+: w) (h2 : PrefixedStorage.pfx q <+: w) :
    False := by
  rcases List.prefix_or_prefix_of_prefix h1 h2 with h' | h'
  · exact hpq (pfx_prefix_pfx h')
  · exact hqp (pfx_prefix_pfx h')

/-- The `p:`-prefix never prefixes a key of the `q:`-store. -/
theorem not_pfx_prefix_fullKey {p q : Str} (hpq : ¬ p <+: q) (hqp : ¬ q <+: p)
    (k₂ : Str) :
    ¬ PrefixedStorage.pfx p <+: PrefixedStorage.fullKey q k₂ :=
  fun h => pfx_incomp hpq hqp _ h (List.prefix_append _ _)

/-- Keys of stores with mutually non-extending prefixes are distinct. -/
theorem fullKey_ne_of_incomp {p q : Str} (hpq : ¬ p <+: q) (hqp : ¬ q <+: p)
    (k k₂ : Str) :
    PrefixedStorage.fullKey p k ≠ PrefixedStorage.fullKey q k₂ := by
  intro he
  apply not_pfx_prefix_fullKey hpq hqp k₂
  rw [← he]
  exact List.prefix_append _ _

/-- What `getItem` sees after a `setItem`. -/
theorem getItem_setItem (st : List (Str × Str)) (k₁ k₂ v : Str) :
    getItem (setItem st k₂ v) k₁
      = if k₁ = k₂ then some v else getItem st k₁ := by
  induction st with
  | nil =>
    by_cases h : k₁ = k₂
    · subst h
      simp [setItem, getItem]
    · simp [setItem, getItem, h, Ne.symm h]
  | cons kv rest ih =>
    by_cases h2 : kv.1 = k₂
    · by_cases h1 : k₁ = k₂
      · subst h1
        simp [setItem, getItem, h2]
      · simp [setItem, getItem, h2, h1, Ne.symm h1]
    · by_cases h1 : kv.1 = k₁
      · have h12 : k₁ ≠ k₂ := by
          rw [← h1]
          exact h2
        simp [setItem, getItem, h1, h2, h12]
      · simp [setItem, getItem, h1, h2, ih]

/-- Filtering with a predicate that keeps every entry of key `k` does not
change what `getItem` sees at `k`. -/
theorem getItem_filter (P : Str × Str → Bool) (st : List (Str × Str)) (k : Str)
    (h : ∀ v, P (k, v) = true) :
    getItem (st.filter P) k = getItem st k := by
  induction st with
  | nil => rfl
  | cons kv rest ih =>
    by_cases hk : kv.1 = k
    · have hP : P kv = true := by
        have hv := h kv.2
        rwa [show ((k, kv.2) : Str × Str) = kv from by rw [← hk]] at hv
      simp [List.filter_cons, hP, getItem, hk]
    · by_cases hP : P kv = true <;> simp [List.filter_cons, hP, getItem, hk, ih]

/-- Unfolding `list` over an entry the prefix matches. -/
theorem list_cons_pos (p : Str) (kv : Str × Str) (l : List (Str × Str))
    (hm : (PrefixedStorage.pfx p).isPrefixOf kv.1 = true) :
    PrefixedStorage.list p (kv :: l)
      = kv.1.drop (p.length + 1) :: PrefixedStorage.list p l := by
  simp [PrefixedStorage.list, List.filter_cons, hm]

/-- Unfolding `list` over an entry the prefix does not match. -/
theorem list_cons_neg (p : Str) (kv : Str × Str) (l : List (Str × Str))
    (hm : ¬ (PrefixedStorage.pfx p).isPrefixOf kv.1 = true) :
    PrefixedStorage.list p (kv :: l) = PrefixedStorage.list p l := by
  simp [PrefixedStorage.list, List.filter_cons, hm]

/-- Filtering with a predicate that keeps every `p:`-entry does not change
`list`. -/
theorem list_filter (p : Str) (Q : Str × Str → Bool) (st : List (Str × Str))
    (h : ∀ kv, (PrefixedStorage.pfx p).isPrefixOf kv.1 = true → Q kv = true) :
    PrefixedStorage.list p (st.filter Q) = PrefixedStorage.list p st := by
  induction st with
  | nil => rfl
  | cons kv rest ih =>
    by_cases hm : (PrefixedStorage.pfx p).isPrefixOf kv.1 = true
    · rw [List.filter_cons, if_pos (h kv hm), list_cons_pos p kv _ hm,
        list_cons_pos p kv _ hm, ih]
    · by_cases hQ : Q kv = true
      · rw [List.filter_cons, if_pos hQ, list_cons_neg p kv _ hm,
          list_cons_neg p kv _ hm, ih]
      · rw [List.filter_cons, if_neg hQ, list_cons_neg p kv _ hm, ih]

/-- A `setItem` under a key outside the `p:`-namespace does not change
`list`. -/
theorem list_setItem (p : Str) (st : List (Str × Str)) (k₂ v : Str)
    (hk : ¬ (PrefixedStorage.pfx p).isPrefixOf k₂ = true) :
    PrefixedStorage.list p (setItem st k₂ v) = PrefixedStorage.list p st := by
  induction st with
  | nil =>
    show PrefixedStorage.list p [(k₂, v)] = PrefixedStorage.list p []
    rw [list_cons_neg p (k₂, v) [] hk]
  | cons kv rest ih =>
    by_cases h2 : kv.1 = k₂
    · show PrefixedStorage.list p
          (if kv.1 == k₂ then (k₂, v) :: rest else kv :: setItem rest k₂ v) = _
      rw [if_pos (by simp [h2])]
      rw [list_cons_neg p (k₂, v) rest hk, list_cons_neg p kv rest (by simpa [h2] using hk)]
    · show PrefixedStorage.list p
          (if kv.1 == k₂ then (k₂, v) :: rest else kv :: setItem rest k₂ v) = _
      rw [if_neg (by simp [h2])]
      by_cases hm : (PrefixedStorage.pfx p).isPrefixOf kv.1 = true
      · rw [list_cons_pos p kv _ hm, list_cons_pos p kv _ hm, ih]
      · rw [list_cons_neg p kv _ hm, list_cons_neg p kv _ hm, ih]

/-- After `clear p` the `p:`-namespace lists empty. -/
theorem list_clear_self (p : Str) (st : List (Str × Str)) :
    PrefixedStorage.list p (PrefixedStorage.clear p st) = [] := by
  induction st with
  | nil => rfl
  | cons kv rest ih =>
    by_cases hm : (PrefixedStorage.pfx p).isPrefixOf kv.1 = true
    · show PrefixedStorage.list p ((kv :: rest).filter _) = []
      rw [List.filter_cons, if_neg (by simp [hm])]
      exact ih
    · show PrefixedStorage.list p ((kv :: rest).filter _) = []
      rw [List.filter_cons, if_pos (by simp [hm])]
      rw [list_cons_neg p kv _ hm]
      exact ih

/-- `list` returns exactly the keys stored under the prefix, stripped. -/
theorem mem_list_iff (p k : Str) (st : List (Str × Str)) :
    k ∈ PrefixedStorage.list p st
      ↔ (getItem st (PrefixedStorage.fullKey p k)).isSome := by
  induction st with
  | nil => simp [PrefixedStorage.list, getItem]
  | cons kv rest ih =>
    by_cases hm : (PrefixedStorage.pfx p).isPrefixOf kv.1 = true
    · have hpre : PrefixedStorage.pfx p <+: kv.1 := by
        simpa using hm
      obtain ⟨t, ht⟩ := hpre
      have hdrop : kv.1.drop (p.length + 1) = t := by
        rw [← ht]
        exact List.drop_left' (by simp [PrefixedStorage.pfx])
      rw [list_cons_pos p kv _ hm, hdrop]
      constructor
      · intro hk
        rcases List.mem_cons.mp hk with hk | hk
        · subst hk
          have he : kv.1 = PrefixedStorage.fullKey p k := by
            rw [← ht]
            rfl
          simp [getItem, he]
        · by_cases he : kv.1 = PrefixedStorage.fullKey p k
          · simp [getItem, he]
          · simp only [getItem]
            rw [if_neg (by simp [he])]
            exact ih.mp hk
      · intro hs
        by_cases he : kv.1 = PrefixedStorage.fullKey p k
        · have hkey : PrefixedStorage.pfx p ++ t = PrefixedStorage.pfx p ++ k := by
            rw [ht, he]
            rfl
          have hteq : t = k := List.append_cancel_left hkey
          subst hteq
          exact List.mem_cons_self _ _
        · refine List.mem_cons_of_mem _ ?_
          refine ih.mpr ?_
          simp only [getItem] at hs
          rwa [if_neg (by simp [he])] at hs
    · have hne : kv.1 ≠ PrefixedStorage.fullKey p k := by
        intro he
        apply hm
        rw [he]
        simp [PrefixedStorage.fullKey]
      rw [list_cons_neg p kv _ hm]
      simp only [getItem]
      rw [if_neg (by simp [hne])]
      exact ih

/-- The boolean `isPrefixOf` is false on a proven non-prefix. -/
theorem isPrefixOf_eq_false {l₁ l₂ : Str} (h : ¬ l₁ <+: l₂) :
    l₁.isPrefixOf l₂ = false := by
  rw [← Bool.not_eq_true, List.isPrefixOf_iff_prefix]
  exact h

/-- C9: the PrefixedStorage adapter round-trips values it stored (for every
value whose serialization is non-empty and survives parsing), two stores
whose prefixes are distinct with neither extending the other are fully
isolated — `set`, `remove` and `clear` on one never change what `get` and
`list` of the other observe — `clear` removes exactly the keys stored under
its own prefix, and `list` returns exactly the stored keys with the prefix
stripped. -/
theorem c9_prefixed_storage_isolation {V W : Type} (stringifyV : V → Str)
    (parseV : Str → Option V) (stringifyW : W → Str) (p q : Str)
    (st : List (Str × Str)) (k k₂ K : Str) (v : V) (w : W)
    (hrt : parseV (stringifyV v) = some v) (hne : stringifyV v ≠ [])
    (hpq : ¬ p <+: q) (hqp : ¬ q <+: p)
    (hK : ¬ PrefixedStorage.pfx p <+: K) :
    PrefixedStorage.get parseV p (PrefixedStorage.set stringifyV p st k v) k
        = some v
    ∧ PrefixedStorage.get parseV p (PrefixedStorage.set stringifyW q st k₂ w) k
        = PrefixedStorage.get parseV p st k
    ∧ PrefixedStorage.get parseV p (PrefixedStorage.remove q st k₂) k
        = PrefixedStorage.get parseV p st k
    ∧ PrefixedStorage.get parseV p (PrefixedStorage.clear q st) k
        = PrefixedStorage.get parseV p st k
    ∧ PrefixedStorage.list p (PrefixedStorage.set stringifyW q st k₂ w)
        = PrefixedStorage.list p st
    ∧ PrefixedStorage.list p (PrefixedStorage.remove q st k₂)
        = PrefixedStorage.list p st
    ∧ PrefixedStorage.list p (PrefixedStorage.clear q st)
        = PrefixedStorage.list p st
    ∧ PrefixedStorage.list p (PrefixedStorage.clear p st) = []
    ∧ getItem (PrefixedStorage.clear p st) K = getItem st K
    ∧ (k ∈ PrefixedStorage.list p st
        ↔ (getItem st (PrefixedStorage.fullKey p k)).isSome) := by
  have hkeys : PrefixedStorage.fullKey p k ≠ PrefixedStorage.fullKey q k₂ :=
    fullKey_ne_of_incomp hpq hqp k k₂
  have hcross : ¬ PrefixedStorage.pfx p <+: PrefixedStorage.fullKey q k₂ :=
    not_pfx_prefix_fullKey hpq hqp k₂
  refine ⟨?_, ?_, ?_, ?_, ?_, ?_, ?_, list_clear_self p st, ?_, mem_list_iff p k st⟩
  · unfold PrefixedStorage.get PrefixedStorage.set
    rw [getItem_setItem, if_pos rfl]
    show (if stringifyV v = [] then none else parseV (stringifyV v)) = some v
    rw [if_neg hne, hrt]
  · unfold PrefixedStorage.get PrefixedStorage.set
    rw [getItem_setItem, if_neg hkeys]
  · unfold PrefixedStorage.get PrefixedStorage.remove removeItem
    rw [getItem_filter _ st _ (fun val => by simp [hkeys])]
  · unfold PrefixedStorage.get PrefixedStorage.clear
    rw [getItem_filter _ st _ (fun val => by
      have hq' : ¬ PrefixedStorage.pfx q <+: PrefixedStorage.fullKey p k :=
        fun hq'' => pfx_incomp hpq hqp _ (List.prefix_append _ _) hq''
      simp [isPrefixOf_eq_false hq'])]
  · exact list_setItem p st _ _ (by simp [isPrefixOf_eq_false hcross])
  · unfold PrefixedStorage.remove removeItem
    refine list_filter p _ st ?_
    intro kv hkv
    have hp' : PrefixedStorage.pfx p <+: kv.1 := by simpa using hkv
    have : kv.1 ≠ PrefixedStorage.fullKey q k₂ := by
      intro he
      exact pfx_incomp hpq hqp _ (he ▸ hp') (List.prefix_append _ _)
    simp [this]
  · unfold PrefixedStorage.clear
    refine list_filter p _ st ?_
    intro kv hkv
    have hp' : PrefixedStorage.pfx p <+: kv.1 := by simpa using hkv
    have hq' : ¬ PrefixedStorage.pfx q <+: kv.1 :=
      fun hq'' => pfx_incomp hpq hqp _ hp' hq''
    simp [isPrefixOf_eq_false hq']
  · unfold PrefixedStorage.clear
    refine getItem_filter _ st _ ?_
    intro val
    simp [isPrefixOf_eq_false hK]

/-- C9 witness: two one-character prefixes, a store holding an unrelated
entry, and the replicate/length codec. -/
theorem c9_prefixed_storage_isolation_witness :
    PrefixedStorage.get (fun l => some (l.length - 1)) ['a']
        (PrefixedStorage.set (fun n => List.replicate (n + 1) 'x') ['a']
          [(PrefixedStorage.fullKey ['b'] ['z'], ['y', 'y'])] ['k'] 2) ['k']
        = some 2
    ∧ PrefixedStorage.get (fun l => some (l.length - 1)) ['a']
        (PrefixedStorage.set (fun n => List.replicate (n + 1) 'x') ['b']
          [(PrefixedStorage.fullKey ['b'] ['z'], ['y', 'y'])] ['z'] 3) ['k']
        = PrefixedStorage.get (fun l => some (l.length - 1)) ['a']
          [(PrefixedStorage.fullKey ['b'] ['z'], ['y', 'y'])] ['k']
    ∧ PrefixedStorage.get (fun l => some (l.length - 1)) ['a']
        (PrefixedStorage.remove ['b']
          [(PrefixedStorage.fullKey ['b'] ['z'], ['y', 'y'])] ['z']) ['k']
        = PrefixedStorage.get (fun l => some (l.length - 1)) ['a']
          [(PrefixedStorage.fullKey ['b'] ['z'], ['y', 'y'])] ['k']
    ∧ PrefixedStorage.get (fun l => some (l.length - 1)) ['a']
        (PrefixedStorage.clear ['b']
          [(PrefixedStorage.fullKey ['b'] ['z'], ['y', 'y'])]) ['k']
        = PrefixedStorage.get (fun l => some (l.length - 1)) ['a']
          [(PrefixedStorage.fullKey ['b'] ['z'], ['y', 'y'])] ['k']
    ∧ PrefixedStorage.list ['a']
        (PrefixedStorage.set (fun n => List.replicate (n + 1) 'x') ['b']
          [(PrefixedStorage.fullKey ['b'] ['z'], ['y', 'y'])] ['z'] 3)
        = PrefixedStorage.list ['a']
          [(PrefixedStorage.fullKey ['b'] ['z'], ['y', 'y'])]
    ∧ PrefixedStorage.list ['a']
        (PrefixedStorage.remove ['b']
          [(PrefixedStorage.fullKey ['b'] ['z'], ['y', 'y'])] ['z'])
        = PrefixedStorage.list ['a']
          [(PrefixedStorage.fullKey ['b'] ['z'], ['y', 'y'])]
    ∧ PrefixedStorage.list ['a']
        (PrefixedStorage.clear ['b']
          [(PrefixedStorage.fullKey ['b'] ['z'], ['y', 'y'])])
        = PrefixedStorage.list ['a']
          [(PrefixedStorage.fullKey ['b'] ['z'], ['y', 'y'])]
    ∧ PrefixedStorage.list ['a']
        (PrefixedStorage.clear ['a']
          [(PrefixedStorage.fullKey ['b'] ['z'], ['y', 'y'])]) = []
    ∧ getItem (PrefixedStorage.clear ['a']
          [(PrefixedStorage.fullKey ['b'] ['z'], ['y', 'y'])]) ['b', ':', 'z']
        = getItem [(PrefixedStorage.fullKey ['b'] ['z'], ['y', 'y'])]
          ['b', ':', 'z']
    ∧ (['k'] ∈ PrefixedStorage.list ['a']
          [(PrefixedStorage.fullKey ['b'] ['z'], ['y', 'y'])]
        ↔ (getItem [(PrefixedStorage.fullKey ['b'] ['z'], ['y', 'y'])]
            (PrefixedStorage.fullKey ['a'] ['k'])).isSome) :=
  c9_prefixed_storage_isolation (fun n => List.replicate (n + 1) 'x')
    (fun l => some (l.length - 1)) (fun n => List.replicate (n + 1) 'x')
    ['a'] ['b'] [(PrefixedStorage.fullKey ['b'] ['z'], ['y', 'y'])]
    ['k'] ['z'] ['b', ':', 'z'] 2 3
    (by decide) (by decide) (by decide) (by decide) (by decide)

end VultisigSpec
